import Mathlib

/-!
Verification of the tag-deduplication pipeline in `aparts/src/deduplication.py`
(repository SamBoerlijst/APART).

The pandas DataFrame holding the binary item-by-tag matrix is embedded as an
ordered list of named columns; each column is a name together with its list of
integer cell values (rows are positions).  All pandas column operations used by
the source (`df[name]`, `df.drop(columns=[name])`, `df[name] = series`) act by
column label, and so do the embedded operations.  Column labels are assumed
unique where the source relies on it (the spec's ItemTagMatrix invariant);
theorems that need the assumption carry it as a hypothesis.
-/

structure DataFrame where
  cols : List (String × List Int)
deriving DecidableEq, Repr

/-- `source in dataframe.columns` membership test. -/
def hasCol (df : DataFrame) (name : String) : Bool :=
  df.cols.any (fun c => decide (c.1 = name))

/-- `dataframe[name]` — the values of the (first) column with the given label. -/
def getCol (df : DataFrame) (name : String) : Option (List Int) :=
  (df.cols.find? (fun c => decide (c.1 = name))).map (fun c => c.2)

def getColD (df : DataFrame) (name : String) : List Int :=
  (getCol df name).getD []

/-- `dataframe[name] = vals` — overwrite the values of every column with the
given label. -/
def setCol (df : DataFrame) (name : String) (vals : List Int) : DataFrame :=
  ⟨df.cols.map (fun c => if c.1 = name then (c.1, vals) else c)⟩

/-- `dataframe.drop(columns=[name], inplace=True)` — remove every column with
the given label (the returned value; in-placeness is handled at call sites). -/
def dropCol (df : DataFrame) (name : String) : DataFrame :=
  ⟨df.cols.filter (fun c => decide (¬ c.1 = name))⟩

/-- The strict-mode row loop of `deduplicate_dataframe`
(`for i in range(len(sourcedata)): if sourcedata[i] > 0: sinkdata[i] = sourcedata[i]`). -/
def strictMergeColumn (sourcedata sinkdata : List Int) : List Int :=
  List.zipWith (fun s k => if 0 < s then s else k) sourcedata sinkdata

/-- One iteration of the `for pair in pairs_list` loop of `deduplicate_dataframe`:
skip the pair when either column is absent, otherwise apply the strict or
lenient merge exactly as the source's two sequential `if mode == ...` blocks do. -/
def applyPair (mode : String) (df : DataFrame) (pair : String × String) : DataFrame :=
  if hasCol df pair.1 && hasCol df pair.2 then
    let sourcedata := getColD df pair.1
    let sinkdata := getColD df pair.2
    let df1 :=
      if mode = "strict" then
        dropCol (setCol df pair.2 (strictMergeColumn sourcedata sinkdata)) pair.1
      else df
    if mode = "lenient" then
      if sourcedata = sinkdata then dropCol df1 pair.1 else df1
    else df1
  else df

/-- `deduplicate_dataframe(dataframe, pairs_list, mode)`: fold the per-pair merge
over the pairs list (the source's initial `dataframe.copy()` is the identity in a
value semantics). -/
def deduplicate_dataframe (df : DataFrame) (pairs_list : List (String × String))
    (mode : String) : DataFrame :=
  pairs_list.foldl (applyPair mode) df

-- ### helper lemmas about the column operations

lemma any_filter_ne_self (l : List (String × List Int)) (n : String) :
    (l.filter (fun c => decide (¬ c.1 = n))).any (fun c => decide (c.1 = n)) = false := by
  induction l with
  | nil => rfl
  | cons c t ih =>
    by_cases hc : c.1 = n <;> simp [List.filter_cons, hc, ih]

lemma hasCol_dropCol_self (df : DataFrame) (n : String) :
    hasCol (dropCol df n) n = false :=
  any_filter_ne_self df.cols n

lemma find?_filter_ne (l : List (String × List Int)) (n m : String) (h : ¬ n = m) :
    (l.filter (fun c => decide (¬ c.1 = m))).find? (fun c => decide (c.1 = n))
      = l.find? (fun c => decide (c.1 = n)) := by
  induction l with
  | nil => rfl
  | cons c t ih =>
    by_cases hm : c.1 = m
    · have hn : ¬ c.1 = n := by
        intro hcn
        exact h (hcn ▸ hm)
      rw [List.filter_cons_of_neg (by simp [hm]), ih,
        List.find?_cons_of_neg _ (by simp [hn])]
    · rw [List.filter_cons_of_pos (by simp [hm])]
      by_cases hn : c.1 = n
      · rw [List.find?_cons_of_pos _ (by simp [hn]),
          List.find?_cons_of_pos _ (by simp [hn])]
      · rw [List.find?_cons_of_neg _ (by simp [hn]), ih,
          List.find?_cons_of_neg _ (by simp [hn])]

lemma getCol_dropCol_ne (df : DataFrame) (n m : String) (h : ¬ n = m) :
    getCol (dropCol df m) n = getCol df n := by
  simp only [getCol, dropCol]
  rw [find?_filter_ne df.cols n m h]

lemma find?_map_setCol (l : List (String × List Int)) (n : String) (v : List Int)
    (h : l.any (fun c => decide (c.1 = n)) = true) :
    ((l.map (fun c => if c.1 = n then (c.1, v) else c)).find?
        (fun c => decide (c.1 = n))) = some (n, v) := by
  induction l with
  | nil => simp at h
  | cons c t ih =>
    by_cases hc : c.1 = n
    · simp [List.find?_cons, hc]
    · have h' : t.any (fun c => decide (c.1 = n)) = true := by
        simpa [hc] using h
      simp [List.find?_cons, hc, ih h']

lemma getCol_setCol_self (df : DataFrame) (n : String) (v : List Int)
    (h : hasCol df n = true) :
    getCol (setCol df n v) n = some v := by
  have := find?_map_setCol df.cols n v (by simpa [hasCol] using h)
  simp [getCol, setCol, this]

-- ### claims C5, C6, C7: the Matrix Merger

/-- Claim C5: `deduplicate_dataframe` in strict mode, applied to a pair
(source, sink) of distinct columns both present in the matrix, replaces the sink
column by the row-wise merge (source value wherever source is positive, sink
value wherever source is zero or negative) and deletes the source column. -/
theorem claim_C5_strict (df : DataFrame) (source sink : String)
    (hs : hasCol df source = true) (hk : hasCol df sink = true)
    (hne : ¬ source = sink) :
    hasCol (deduplicate_dataframe df [(source, sink)] "strict") source = false
    ∧ getColD (deduplicate_dataframe df [(source, sink)] "strict") sink
        = List.zipWith (fun s k => if 0 < s then s else k)
            (getColD df source) (getColD df sink) := by
  have hr : deduplicate_dataframe df [(source, sink)] "strict"
      = dropCol (setCol df sink
          (strictMergeColumn (getColD df source) (getColD df sink))) source := by
    simp [deduplicate_dataframe, applyPair, hs, hk]
  constructor
  · rw [hr]
    exact hasCol_dropCol_self _ source
  · rw [hr]
    have hkne : ¬ sink = source := fun h => hne h.symm
    rw [getColD, getCol_dropCol_ne _ sink source hkne,
      getCol_setCol_self df sink _ hk]
    rfl

theorem claim_C5_strict_witness :
    hasCol ⟨[("a", [1, 0, 2]), ("b", [0, 5, 0])]⟩ "a" = true
    ∧ hasCol ⟨[("a", [1, 0, 2]), ("b", [0, 5, 0])]⟩ "b" = true
    ∧ ¬ "a" = "b"
    ∧ (hasCol (deduplicate_dataframe ⟨[("a", [1, 0, 2]), ("b", [0, 5, 0])]⟩
          [("a", "b")] "strict") "a" = false
      ∧ getColD (deduplicate_dataframe ⟨[("a", [1, 0, 2]), ("b", [0, 5, 0])]⟩
          [("a", "b")] "strict") "b"
        = List.zipWith (fun s k => if 0 < s then s else k)
            (getColD ⟨[("a", [1, 0, 2]), ("b", [0, 5, 0])]⟩ "a")
            (getColD ⟨[("a", [1, 0, 2]), ("b", [0, 5, 0])]⟩ "b")) :=
  ⟨by decide, by decide, by decide,
    claim_C5_strict ⟨[("a", [1, 0, 2]), ("b", [0, 5, 0])]⟩ "a" "b"
      (by decide) (by decide) (by decide)⟩

/-- Claim C6: `deduplicate_dataframe` in lenient mode, applied to a pair
(source, sink) of distinct columns both present, deletes the source column iff
it is element-wise identical to the sink column; the sink column is never
modified, and when the columns differ the whole matrix is unchanged. -/
theorem claim_C6_lenient (df : DataFrame) (source sink : String)
    (hs : hasCol df source = true) (hk : hasCol df sink = true)
    (hne : ¬ source = sink) :
    (hasCol (deduplicate_dataframe df [(source, sink)] "lenient") source = false
      ↔ getColD df source = getColD df sink)
    ∧ getCol (deduplicate_dataframe df [(source, sink)] "lenient") sink
        = getCol df sink
    ∧ (¬ getColD df source = getColD df sink
        → deduplicate_dataframe df [(source, sink)] "lenient" = df) := by
  by_cases heq : getColD df source = getColD df sink
  · have hr : deduplicate_dataframe df [(source, sink)] "lenient"
        = dropCol df source := by
      simp [deduplicate_dataframe, applyPair, hs, hk, heq]
    refine ⟨?_, ?_, fun hcontra => absurd heq hcontra⟩
    · rw [hr]
      simp [hasCol_dropCol_self df source, heq]
    · rw [hr]
      exact getCol_dropCol_ne df sink source (fun h => hne h.symm)
  · have hr : deduplicate_dataframe df [(source, sink)] "lenient" = df := by
      simp [deduplicate_dataframe, applyPair, hs, hk, heq]
    refine ⟨?_, by rw [hr], fun _ => hr⟩
    rw [hr]
    simp [hs, heq]

theorem claim_C6_lenient_witness :
    hasCol ⟨[("a", [1, 2]), ("b", [1, 2])]⟩ "a" = true
    ∧ hasCol ⟨[("a", [1, 2]), ("b", [1, 2])]⟩ "b" = true
    ∧ ¬ "a" = "b"
    ∧ ((hasCol (deduplicate_dataframe ⟨[("a", [1, 2]), ("b", [1, 2])]⟩
            [("a", "b")] "lenient") "a" = false
        ↔ getColD ⟨[("a", [1, 2]), ("b", [1, 2])]⟩ "a"
            = getColD ⟨[("a", [1, 2]), ("b", [1, 2])]⟩ "b")
      ∧ getCol (deduplicate_dataframe ⟨[("a", [1, 2]), ("b", [1, 2])]⟩
            [("a", "b")] "lenient") "b"
          = getCol ⟨[("a", [1, 2]), ("b", [1, 2])]⟩ "b"
      ∧ (¬ getColD ⟨[("a", [1, 2]), ("b", [1, 2])]⟩ "a"
            = getColD ⟨[("a", [1, 2]), ("b", [1, 2])]⟩ "b"
          → deduplicate_dataframe ⟨[("a", [1, 2]), ("b", [1, 2])]⟩
              [("a", "b")] "lenient" = ⟨[("a", [1, 2]), ("b", [1, 2])]⟩)) :=
  ⟨by decide, by decide, by decide,
    claim_C6_lenient ⟨[("a", [1, 2]), ("b", [1, 2])]⟩ "a" "b"
      (by decide) (by decide) (by decide)⟩

/-- Claim C7: a pair whose source or sink column is absent from the current
matrix is skipped by `deduplicate_dataframe` without error and without changing
any column, in every mode. -/
theorem claim_C7_skip (df : DataFrame) (mode : String) (pair : String × String)
    (rest : List (String × String))
    (h : hasCol df pair.1 = false ∨ hasCol df pair.2 = false) :
    deduplicate_dataframe df (pair :: rest) mode
      = deduplicate_dataframe df rest mode := by
  have hstep : applyPair mode df pair = df := by
    rcases h with h | h <;> simp [applyPair, h]
  simp [deduplicate_dataframe, List.foldl_cons, hstep]

theorem claim_C7_skip_witness :
    (hasCol ⟨[("b", [1])]⟩ "a" = false ∨ hasCol ⟨[("b", [1])]⟩ "b" = false)
    ∧ deduplicate_dataframe ⟨[("b", [1])]⟩ [("a", "b"), ("b", "b")] "strict"
        = deduplicate_dataframe ⟨[("b", [1])]⟩ [("b", "b")] "strict" :=
  ⟨Or.inl (by decide),
    claim_C7_skip ⟨[("b", [1])]⟩ "strict" ("a", "b") [("b", "b")]
      (Or.inl (by decide))⟩

-- ### the Conjugation Deduplicator (`deduplicate_tag_conjugations`)

/-- Python's `word.startswith(existing_prefix[:len(word)])`: the accepted tag,
truncated to the word's character length, is a prefix of the word.  Python's
slicing and `len` are character-based, hence the test runs over `String.data`. -/
def leadingMatch (word p : String) : Bool :=
  List.isPrefixOf (p.data.take word.data.length) word.data

/-- The duplicate test of `deduplicate_tag_conjugations`:
`any(word.startswith(existing_prefix[:len(word)]) for existing_prefix in processed_prefixes)`.
The source keeps `processed_prefixes` as a set; it is embedded as the list of
accepted tags in insertion order. -/
def isDuplicateOf (word : String) (accepted : List String) : Bool :=
  accepted.any (fun p => leadingMatch word p)

/-- The sink chosen by the source's
`next(existing_prefix for existing_prefix in processed_prefixes if ...)`:
the first accepted tag matching the truncated-prefix test.  (Python iterates a
set here; whenever a unique accepted tag matches, the choice is independent of
iteration order.) -/
def firstMatchOf (word : String) (accepted : List String) : String :=
  (accepted.find? (fun p => leadingMatch word p)).getD ""

/-- The `for word in sorted_words` loop of `deduplicate_tag_conjugations` on a
flat list of strings, returning (`deduplicated`, `deleted_pairs`).  (On nested
input the source recurses into sublists with the same shared accumulator; the
claims under verification concern flat tag groups.) -/
def conjugationsGo : List String → List String → List String × List (String × String)
  | [], _ => ([], [])
  | w :: ws, accepted =>
    if isDuplicateOf w accepted then
      let rest := conjugationsGo ws accepted
      (rest.1, (w, firstMatchOf w accepted) :: rest.2)
    else
      let rest := conjugationsGo ws (accepted ++ [w])
      (w :: rest.1, rest.2)

/-- `sorted(word_list, key=len, reverse=True)`: stable sort by length,
descending.  `List.insertionSort` is stable (ties keep their input order), as
Python's `sorted` is, so both denote the same function on every input. -/
def sortWordsByLength (l : List String) : List String :=
  l.insertionSort (fun a b => b.length ≤ a.length)

/-- `deduplicate_tag_conjugations(word_list, method)` on a flat list: the body
computes both `deduplicated` and `deleted_pairs` and returns the latter when
`method == "pairs"`, the former otherwise; the embedding returns the pair. -/
def deduplicate_tag_conjugations (word_list : List String) :
    List String × List (String × String) :=
  conjugationsGo (sortWordsByLength word_list) []

/-- The collapse-mode result (`method` anything but `"pairs"`). -/
def conjugationsCollapse (word_list : List String) : List String :=
  (deduplicate_tag_conjugations word_list).1

/-- The pairs-mode result (`method == "pairs"`). -/
def conjugationsPairs (word_list : List String) : List (String × String) :=
  (deduplicate_tag_conjugations word_list).2

-- ### claims C2, C3: the Conjugation Deduplicator

/-- Claim C2 fails on the code: on the group ["grow", "growth", "grew"], pairs
mode does not return [("grow", "growth"), ("grew", "growth")], because "grew"
is not a leading-substring match of "growth" ("grew" does not start with
"grow"[:4] = "grow"). -/
theorem claim_C2_cex :
    ¬ conjugationsPairs ["grow", "growth", "grew"]
        = [("grow", "growth"), ("grew", "growth")] := by
  decide

/-- Claim C2 amended: on the group ["grow", "growth", "grew"], the length-
descending stable sort processes the tags as "growth", "grow", "grew"; pairs
mode returns exactly [("grow", "growth")] ("grew" is not a leading-substring
match of "growth"), and the strict merge of those pairs removes only the "grow"
column, leaving "growth" (with the merged values) and "grew". -/
theorem claim_C2_amended :
    sortWordsByLength ["grow", "growth", "grew"] = ["growth", "grow", "grew"]
    ∧ conjugationsPairs ["grow", "growth", "grew"] = [("grow", "growth")]
    ∧ (deduplicate_dataframe
          ⟨[("grow", [1, 0, 1]), ("growth", [1, 1, 0]), ("grew", [0, 1, 1])]⟩
          (conjugationsPairs ["grow", "growth", "grew"]) "strict").cols
        = [("growth", [1, 1, 1]), ("grew", [0, 1, 1])] := by
  refine ⟨by decide, by decide, by decide⟩

lemma conjugationsGo_fst_sublist :
    ∀ (ws accepted : List String), (conjugationsGo ws accepted).1.Sublist ws := by
  intro ws
  induction ws with
  | nil => intro accepted; simp [conjugationsGo]
  | cons w t ih =>
    intro accepted
    by_cases hd : isDuplicateOf w accepted
    · simpa [conjugationsGo, hd] using (ih accepted).cons w
    · simpa [conjugationsGo, hd] using (ih (accepted ++ [w])).cons₂ w

/-- Re-running the word loop on its own accepted output (with the same starting
accumulator) accepts everything again and records no pairs. -/
lemma conjugationsGo_idem :
    ∀ (ws accepted : List String),
      conjugationsGo (conjugationsGo ws accepted).1 accepted
        = ((conjugationsGo ws accepted).1, []) := by
  intro ws
  induction ws with
  | nil => intro accepted; simp [conjugationsGo]
  | cons w t ih =>
    intro accepted
    by_cases hd : isDuplicateOf w accepted
    · simpa [conjugationsGo, hd] using ih accepted
    · simp only [conjugationsGo, hd, if_neg, Bool.false_eq_true, not_false_eq_true,
        if_false]
      simp [conjugationsGo, hd, ih (accepted ++ [w])]

lemma sortWordsByLength_of_pairwise (l : List String)
    (h : l.Pairwise (fun a b => b.length ≤ a.length)) :
    sortWordsByLength l = l :=
  List.Sorted.insertionSort_eq h

/-- Claim C3: collapse mode is idempotent — feeding its own output back through
`deduplicate_tag_conjugations` returns the output unchanged and records zero
pairs in the accumulator. -/
theorem claim_C3_idem (l : List String) :
    deduplicate_tag_conjugations (conjugationsCollapse l)
      = (conjugationsCollapse l, ([] : List (String × String))) := by
  have hsorted : (sortWordsByLength l).Pairwise
      (fun a b : String => b.length ≤ a.length) := by
    haveI : IsTotal String (fun a b : String => b.length ≤ a.length) :=
      ⟨fun a b => Nat.le_total _ _⟩
    haveI : IsTrans String (fun a b : String => b.length ≤ a.length) :=
      ⟨fun _ _ _ hab hbc => le_trans hbc hab⟩
    exact List.sorted_insertionSort _ l
  have hsub : (conjugationsGo (sortWordsByLength l) []).1.Sublist
      (sortWordsByLength l) := conjugationsGo_fst_sublist _ _
  have hpair : (conjugationsGo (sortWordsByLength l) []).1.Pairwise
      (fun a b : String => b.length ≤ a.length) :=
    hsorted.sublist hsub
  calc deduplicate_tag_conjugations (conjugationsCollapse l)
      = conjugationsGo (sortWordsByLength (conjugationsGo (sortWordsByLength l) []).1) [] := rfl
    _ = conjugationsGo (conjugationsGo (sortWordsByLength l) []).1 [] := by
        rw [sortWordsByLength_of_pairwise _ hpair]
    _ = ((conjugationsGo (sortWordsByLength l) []).1, []) := conjugationsGo_idem _ _
    _ = (conjugationsCollapse l, []) := rfl

-- ### Phase-3 manual resolution (`manual_deduplication`)

/-- `manual_deduplication(tuples, dataframe)` with the operator's console
responses supplied as a script `answers` indexed by prompt number `k`: each
`input(...)` consumes the next scripted response (the script stands for the
responses after the source's `.lower()`).  Mirrors the source loop exactly: a
pair with a missing column is passed over without prompting; response "y"
merges (`sinkdata.add(sourcedata)`, sink overwritten, source dropped);
response "n" executes `break`, leaving the loop and returning the matrix
merged so far; response "q" returns it likewise; any other response prints an
invalid-input message and the `for` loop moves on to the next pair. -/
def manual_deduplication (answers : Nat → String) :
    List (String × String) → DataFrame → Nat → DataFrame
  | [], df, _ => df
  | (source, sink) :: rest, df, k =>
    if hasCol df source && hasCol df sink then
      if answers k = "y" then
        manual_deduplication answers rest
          (dropCol (setCol df sink
            (List.zipWith (fun a b => a + b) (getColD df sink) (getColD df source)))
            source) (k + 1)
      else if answers k = "n" then df
      else if answers k = "q" then df
      else manual_deduplication answers rest df (k + 1)
    else manual_deduplication answers rest df k

def dfC4 : DataFrame :=
  ⟨[("a", [1, 0]), ("b", [0, 1]), ("c", [1, 1]), ("d", [0, 0])]⟩

/-- Claim C4 fails on the code.  With pairs [("a","b"), ("c","d")] all present:
script "n","y" — the source's `elif answer == "n": break` aborts the whole
loop, returning the matrix untouched, instead of advancing to ("c","d") (whose
"y" would have merged it); script "x","y" — the invalid response advances to
the next pair instead of re-offering ("a","b"), so the "y" merges ("c","d")
while "a" is left in place. -/
theorem claim_C4_eval :
    manual_deduplication (fun k => ["n", "y"].getD k "")
        [("a", "b"), ("c", "d")] dfC4 0 = dfC4
    ∧ manual_deduplication (fun k => ["x", "y"].getD k "")
        [("a", "b"), ("c", "d")] dfC4 0
      = ⟨[("a", [1, 0]), ("b", [0, 1]), ("d", [1, 1])]⟩ := by
  refine ⟨by decide, by decide⟩

-- ### the Column Filter (`drop_0_columns`, `count_tag_occurrence`, `drop_unique_columns`)

/-- The labels `dataframe.columns[(dataframe == 0).all()]` computed by
`drop_0_columns`: labels of columns whose every value equals 0. -/
def zeroColumnNames (df : DataFrame) : List String :=
  (df.cols.filter (fun c => c.2.all (fun v => decide (v = 0)))).map (fun c => c.1)

/-- The value computed by `drop_0_columns`: the matrix with every all-zero
column label dropped. -/
def drop_0_columns (df : DataFrame) : DataFrame :=
  ⟨df.cols.filter (fun c => decide (c.1 ∉ zeroColumnNames df))⟩

/-- `drop_0_columns(dataframe)` as a call: the source drops with
`inplace=True` on the argument and returns that same object, so after the call
the caller's dataframe equals the filtered result, not the original.  First
component: the return value; second component: the argument object's value
after the call. -/
def drop_0_columns_call (df : DataFrame) : DataFrame × DataFrame :=
  (drop_0_columns df, drop_0_columns df)

/-- `count_tag_occurrence(dataframe)`: occurrence counts over the tag columns
`dataframe.columns[1:]`, keeping only positive counts, sorted by count
descending (Python's `list.sort(reverse=True)` is stable, as
`List.insertionSort` is). -/
def count_tag_occurrence (df : DataFrame) : List (String × Int) :=
  (((df.cols.drop 1).map (fun c => (c.1, c.2.sum))).filter
      (fun p => decide (0 < p.2))).insertionSort (fun a b => b.2 ≤ a.2)

/-- The value computed by `drop_unique_columns`: drop every counted tag column
whose occurrence count is exactly 1. -/
def drop_unique_columns (df : DataFrame) : DataFrame :=
  (count_tag_occurrence df).foldl
    (fun acc p => if p.2 = 1 then dropCol acc p.1 else acc) df

/-- `drop_unique_columns(Dataframe)` as a call: the source copies first
(`filtered_dataframe = Dataframe.copy()`) and drops from the copy only, so the
argument object is unchanged by the call.  First component: the return value;
second component: the argument object's value after the call. -/
def drop_unique_columns_call (df : DataFrame) : DataFrame × DataFrame :=
  (drop_unique_columns df, df)

-- ### claim C8: the Column Filter frame behaviour

/-- Claim C8 fails on the code for `drop_0_columns`: it drops with
`inplace=True`, so after the call the dataframe passed in no longer contains
its all-zero columns — here the input had columns "a" and "z" but holds only
"a" after the call. -/
theorem claim_C8_cex :
    ¬ (drop_0_columns_call ⟨[("a", [1, 0]), ("z", [0, 0])]⟩).2
        = ⟨[("a", [1, 0]), ("z", [0, 0])]⟩ := by
  decide

/-- Claim C8 amended: `drop_unique_columns` operates on a copy — the dataframe
passed in still contains all of its original columns and values after the call,
the filtered result being returned separately — but `drop_0_columns` mutates
its argument in place: after the call the passed dataframe equals the filtered
return value (its all-zero columns are gone from the object itself). -/
theorem claim_C8_amended (df : DataFrame) :
    (drop_unique_columns_call df).2 = df
    ∧ (drop_0_columns_call df).2 = (drop_0_columns_call df).1 :=
  ⟨rfl, rfl⟩

-- ### claim C1: the Deduplication Orchestrator dataflow

/-- The dataflow of `merge_similar_tags_from_dataframe` around its two
`deduplicate_dataframe` calls, with the sklearn-derived tag-similarity results
abstracted as the pair lists they produce (`deduplicated_tags` from the
pairs-mode Phase 1, `potential_duplicates` for Phase 2).  Faithful to the
source: the Phase-2 lenient call receives `matrix` — the input matrix after
`drop_0_columns` — not `matrix_deduplicated`.  Returns
(`matrix`, `matrix_deduplicated`, `matrix_deduplicated_lenient`). -/
def merge_similar_tags_dataflow (matrix0 : DataFrame)
    (deduplicated_tags potential_duplicates : List (String × String)) :
    DataFrame × DataFrame × DataFrame :=
  let matrix := drop_0_columns matrix0
  let matrix_deduplicated := deduplicate_dataframe matrix deduplicated_tags "strict"
  let matrix_deduplicated_lenient :=
    deduplicate_dataframe matrix potential_duplicates "lenient"
  (matrix, matrix_deduplicated, matrix_deduplicated_lenient)

def mC1 : DataFrame :=
  ⟨[("grow", [1, 0, 1]), ("growth", [1, 1, 0]), ("grew", [0, 1, 1])]⟩

/-- Claim C1 fails on the code.  With the Phase-1 pairs computed by the
pairs-mode deduplicator on the group ["grow", "growth", "grew"], the Phase-1
strict merge deletes the "grow" column; but the dataframe the code passes to
the lenient-mode call is `matrix` (the zero-column-filtered input), which still
contains "grow" and so differs from the Phase-1 result — and the Phase-2 output
therefore still contains the column Phase 1 deleted. -/
theorem claim_C1_eval :
    hasCol (merge_similar_tags_dataflow mC1
        (conjugationsPairs ["grow", "growth", "grew"]) []).2.1 "grow" = false
    ∧ hasCol (merge_similar_tags_dataflow mC1
        (conjugationsPairs ["grow", "growth", "grew"]) []).1 "grow" = true
    ∧ ¬ (merge_similar_tags_dataflow mC1
          (conjugationsPairs ["grow", "growth", "grew"]) []).1
        = (merge_similar_tags_dataflow mC1
            (conjugationsPairs ["grow", "growth", "grew"]) []).2.1
    ∧ hasCol (merge_similar_tags_dataflow mC1
        (conjugationsPairs ["grow", "growth", "grew"]) []).2.2 "grow" = true := by
  refine ⟨by decide, by decide, by decide, by decide⟩

-- ### the Variance Reducer computation of `plot_pca_tags`

/-- `np.cumsum(explained_variance_ratio)`: running partial sums. -/
def cumsum : List ℚ → List ℚ
  | [] => []
  | x :: xs => x :: (cumsum xs).map (fun y => x + y)

/-- Index of the first `true`, if any. -/
def firstTrueIdx : List Bool → Option Nat
  | [] => none
  | true :: _ => some 0
  | false :: xs => (firstTrueIdx xs).map (fun n => n + 1)

/-- `np.argmax` on a boolean vector: the index of the first `True` entry, or 0
when no entry is `True`. -/
def npArgmaxBool (l : List Bool) : Nat :=
  (firstTrueIdx l).getD 0

/-- `np.argmax(cumulative_variance >= t) + 1` — the component-count computation
of `plot_pca_tags` (thresholds 0.80 and 0.95 in the source), taking the
explained-variance-ratio vector of the fitted PCA as input. -/
def numComponentsForVariance (evr : List ℚ) (t : ℚ) : Nat :=
  npArgmaxBool ((cumsum evr).map (fun c => decide (t ≤ c))) + 1

/-- `k` is the smallest 1-indexed component count whose cumulative explained
variance reaches `t`: position `k` (1-indexed) of the cumulative vector is at
least `t`, and every strictly smaller count falls short of `t`. -/
def smallestCountReaching (evr : List ℚ) (t : ℚ) (k : Nat) : Prop :=
  1 ≤ k
  ∧ (∃ c, (cumsum evr)[k - 1]? = some c ∧ t ≤ c)
  ∧ ∀ m, m + 1 < k → ∃ c, (cumsum evr)[m]? = some c ∧ c < t

lemma cumsum_nonneg : ∀ (l : List ℚ), (∀ x ∈ l, 0 ≤ x) → ∀ c ∈ cumsum l, 0 ≤ c := by
  intro l
  induction l with
  | nil =>
    intro _ c hc
    simp [cumsum] at hc
  | cons x xs ih =>
    intro h c hc
    simp only [cumsum, List.mem_cons, List.mem_map] at hc
    rcases hc with rfl | ⟨y, hy, rfl⟩
    · exact h c (by simp)
    · have hx : 0 ≤ x := h x (by simp)
      have hy0 : 0 ≤ y := ih (fun z hz => h z (by simp [hz])) y hy
      linarith

lemma cumsum_pairwise : ∀ (l : List ℚ), (∀ x ∈ l, 0 ≤ x) →
    (cumsum l).Pairwise (· ≤ ·) := by
  intro l
  induction l with
  | nil =>
    intro _
    simp [cumsum]
  | cons x xs ih =>
    intro h
    simp only [cumsum, List.pairwise_cons]
    constructor
    · intro y hy
      rcases List.mem_map.mp hy with ⟨z, hz, rfl⟩
      have hz0 : 0 ≤ z := cumsum_nonneg xs (fun w hw => h w (by simp [hw])) z hz
      linarith
    · refine List.Pairwise.map _ (fun a b hab => ?_)
        (ih (fun w hw => h w (by simp [hw])))
      simpa using hab

lemma cumsum_sum_mem : ∀ (l : List ℚ), l ≠ [] → l.sum ∈ cumsum l := by
  intro l
  induction l with
  | nil =>
    intro h
    exact absurd rfl h
  | cons x xs ih =>
    intro _
    by_cases hxs : xs = []
    · subst hxs
      simp [cumsum]
    · simp only [cumsum, List.sum_cons, List.mem_cons, List.mem_map]
      exact Or.inr ⟨xs.sum, ih hxs, rfl⟩

lemma firstTrueIdx_spec : ∀ (l : List Bool) (j : Nat), firstTrueIdx l = some j →
    l[j]? = some true ∧ ∀ m, m < j → l[m]? = some false := by
  intro l
  induction l with
  | nil =>
    intro j hj
    simp [firstTrueIdx] at hj
  | cons b xs ih =>
    intro j hj
    cases b with
    | true =>
      simp only [firstTrueIdx, Option.some.injEq] at hj
      subst hj
      exact ⟨by simp, fun m hm => absurd hm (Nat.not_lt_zero m)⟩
    | false =>
      simp only [firstTrueIdx, Option.map_eq_some'] at hj
      rcases hj with ⟨j', hj', rfl⟩
      rcases ih j' hj' with ⟨hget, hbefore⟩
      refine ⟨by simpa using hget, fun m hm => ?_⟩
      cases m with
      | zero => simp
      | succ m' =>
        simpa using hbefore m' (Nat.lt_of_succ_lt_succ hm)

lemma firstTrueIdx_of_mem : ∀ (l : List Bool), true ∈ l →
    ∃ j, firstTrueIdx l = some j := by
  intro l
  induction l with
  | nil =>
    intro h
    simp at h
  | cons b xs ih =>
    intro h
    cases b with
    | true => exact ⟨0, rfl⟩
    | false =>
      have hxs : true ∈ xs := by simpa using h
      rcases ih hxs with ⟨j, hj⟩
      exact ⟨j + 1, by simp [firstTrueIdx, hj]⟩

lemma numComponents_spec (evr : List ℚ) (t : ℚ) (hne : evr ≠ [])
    (hsum : t ≤ evr.sum) :
    smallestCountReaching evr t (numComponentsForVariance evr t) := by
  have hmem : true ∈ (cumsum evr).map (fun c => decide (t ≤ c)) := by
    refine List.mem_map.mpr ⟨evr.sum, cumsum_sum_mem evr hne, ?_⟩
    simp [hsum]
  rcases firstTrueIdx_of_mem _ hmem with ⟨j, hj⟩
  rcases firstTrueIdx_spec _ j hj with ⟨hget, hbefore⟩
  have hk : numComponentsForVariance evr t = j + 1 := by
    simp [numComponentsForVariance, npArgmaxBool, hj]
  rw [hk]
  refine ⟨Nat.le_add_left 1 j, ?_, ?_⟩
  · rw [List.getElem?_map] at hget
    rcases Option.map_eq_some'.mp hget with ⟨c, hc, hdec⟩
    refine ⟨c, by simpa using hc, ?_⟩
    simpa using hdec
  · intro m hm
    have hm' : m < j := by omega
    have := hbefore m hm'
    rw [List.getElem?_map] at this
    rcases Option.map_eq_some'.mp this with ⟨c, hc, hdec⟩
    refine ⟨c, hc, ?_⟩
    have : ¬ t ≤ c := by simpa using hdec
    linarith

/-- Claim C9: for a full-PCA explained-variance-ratio vector (non-negative
entries, one per component, summing to 1), the cumulative explained-variance
vector computed by `plot_pca_tags` is non-decreasing in component index, and
the two returned counts are the smallest 1-indexed component counts at which
cumulative explained variance is at least 0.80 and at least 0.95. -/
theorem claim_C9_variance (evr : List ℚ) (hne : evr ≠ [])
    (hpos : ∀ x ∈ evr, 0 ≤ x) (hsum : evr.sum = 1) :
    (cumsum evr).Pairwise (· ≤ ·)
    ∧ smallestCountReaching evr (4 / 5) (numComponentsForVariance evr (4 / 5))
    ∧ smallestCountReaching evr (19 / 20)
        (numComponentsForVariance evr (19 / 20)) := by
  refine ⟨cumsum_pairwise evr hpos, ?_, ?_⟩
  · refine numComponents_spec evr (4 / 5) hne ?_
    rw [hsum]
    norm_num
  · refine numComponents_spec evr (19 / 20) hne ?_
    rw [hsum]
    norm_num

theorem claim_C9_variance_witness :
    ([1 / 2, 2 / 5, 1 / 10] : List ℚ) ≠ []
    ∧ (∀ x ∈ ([1 / 2, 2 / 5, 1 / 10] : List ℚ), 0 ≤ x)
    ∧ ([1 / 2, 2 / 5, 1 / 10] : List ℚ).sum = 1
    ∧ ((cumsum [1 / 2, 2 / 5, 1 / 10]).Pairwise (· ≤ ·)
      ∧ smallestCountReaching [1 / 2, 2 / 5, 1 / 10] (4 / 5)
          (numComponentsForVariance [1 / 2, 2 / 5, 1 / 10] (4 / 5))
      ∧ smallestCountReaching [1 / 2, 2 / 5, 1 / 10] (19 / 20)
          (numComponentsForVariance [1 / 2, 2 / 5, 1 / 10] (19 / 20))) :=
  ⟨by simp, by norm_num, by norm_num,
    claim_C9_variance [1 / 2, 2 / 5, 1 / 10] (by simp) (by norm_num) (by norm_num)⟩

-- ### claim C10: `drop_unique_columns` never touches the first column

lemma count_tag_occurrence_names (df : DataFrame) (p : String × Int)
    (hp : p ∈ count_tag_occurrence df) :
    p.1 ∈ (df.cols.drop 1).map (fun c => c.1) := by
  have h1 : p ∈ ((df.cols.drop 1).map (fun c => (c.1, c.2.sum))).filter
      (fun q => decide (0 < q.2)) := by
    simpa [count_tag_occurrence] using
      (List.mem_insertionSort (fun a b : String × Int => b.2 ≤ a.2)).mp hp
  have h2 := List.mem_of_mem_filter h1
  rcases List.mem_map.mp h2 with ⟨c, hc, rfl⟩
  exact List.mem_map.mpr ⟨c, hc, rfl⟩

lemma foldl_dropCol_head (c0 : String × List Int) :
    ∀ (counts : List (String × Int)) (acc : DataFrame) (r : List (String × List Int)),
      acc.cols = c0 :: r → (∀ p ∈ counts, ¬ p.1 = c0.1) →
      ∃ r', (counts.foldl
          (fun acc p => if p.2 = 1 then dropCol acc p.1 else acc) acc).cols
        = c0 :: r' := by
  intro counts
  induction counts with
  | nil =>
    intro acc r hacc _
    exact ⟨r, by simpa using hacc⟩
  | cons p t ih =>
    intro acc r hacc hnames
    by_cases hp : p.2 = 1
    · have hne : ¬ c0.1 = p.1 := fun h => hnames p (by simp) h.symm
      have hdrop : (dropCol acc p.1).cols
          = c0 :: r.filter (fun c => decide (¬ c.1 = p.1)) := by
        simp only [dropCol, hacc]
        rw [List.filter_cons_of_pos (by simp [hne])]
      simp only [List.foldl_cons, if_pos hp]
      exact ih (dropCol acc p.1) _ hdrop (fun q hq => hnames q (by simp [hq]))
    · simp only [List.foldl_cons, if_neg hp]
      exact ih acc r hacc (fun q hq => hnames q (by simp [hq]))

/-- Claim C10: `drop_unique_columns` never removes the first column of the
dataframe: `count_tag_occurrence` counts only `dataframe.columns[1:]`, so
(under unique column labels, here: the first label does not recur among the
tag columns) the first column is still present, unchanged, and first in the
output, even when it has exactly one nonzero observation. -/
theorem claim_C10_firstcol (df : DataFrame) (c0 : String × List Int)
    (rest : List (String × List Int)) (hcols : df.cols = c0 :: rest)
    (hname : ¬ c0.1 ∈ rest.map (fun c => c.1)) :
    (drop_unique_columns df).cols.head? = some c0 := by
  have hnames : ∀ p ∈ count_tag_occurrence df, ¬ p.1 = c0.1 := by
    intro p hp h
    have hmem := count_tag_occurrence_names df p hp
    rw [hcols] at hmem
    simp only [List.drop_succ_cons, List.drop_zero] at hmem
    exact hname (h ▸ hmem)
  rcases foldl_dropCol_head c0 (count_tag_occurrence df) df rest hcols hnames
    with ⟨r', hr'⟩
  simp [drop_unique_columns, hr']

theorem claim_C10_firstcol_witness :
    (⟨[("id", [0, 1]), ("a", [1, 0])]⟩ : DataFrame).cols
        = ("id", ([0, 1] : List Int)) :: [("a", [1, 0])]
    ∧ ¬ ("id", ([0, 1] : List Int)).1 ∈ [("a", ([1, 0] : List Int))].map (fun c => c.1)
    ∧ (drop_unique_columns ⟨[("id", [0, 1]), ("a", [1, 0])]⟩).cols.head?
        = some ("id", [0, 1]) :=
  ⟨rfl, by decide,
    claim_C10_firstcol ⟨[("id", [0, 1]), ("a", [1, 0])]⟩ ("id", [0, 1])
      [("a", [1, 0])] rfl (by decide)⟩
